import Mathlib

/-!
Verification development for the not-io / flexible-io repository.

The Rust sources are shallowly embedded: byte buffers become `List Nat`,
machine integers become `Nat`/`Int` with explicit bounds where overflow is
checked by the source, fallible operations return `Except`, and a reachable
panic of the source is modelled as `Option.none`.  Loops whose termination
depends on the wrapped stream are given an explicit fuel parameter; running
out of fuel also yields `none` and no theorem below depends on that branch.
-/

/-- Bytes are modelled as natural numbers; none of the verified properties
depends on the 0..255 range. -/
abbrev Byte := Nat

/-- The kinds of the host (std::io) error type that this development observes,
together with a catch-all for every other kind.  The crate only ever inspects
the kind of a host error. -/
inductive IoErrorKind where
  | WriteZero
  | UnexpectedEof
  | Interrupted
  | WouldBlock
  | InvalidData
  | InvalidInput
  | Other
  deriving DecidableEq

/-- An IO error as the crates observe it: only its kind is ever consulted.
This stands both for `std::io::Error` (wrapped by `not_io::Error` when the
`std` feature is active, and used directly by flexible-io) and for the revised
crate error type whose declaration is not part of the sources. -/
structure IoError where
  kind : IoErrorKind
  deriving DecidableEq

/-- Models `Error::is_interrupted` in the `std` build (src/src/lib.rs together
with impls_std.rs): true exactly when the wrapped host error has the
interrupted kind. -/
def IoError.is_interrupted (e : IoError) : Bool :=
  match e.kind with
  | .Interrupted => true
  | _ => false

/-- The error kind enumeration declared by src/src/lib.rs (lines 124-133).
The `compat`-only marker variant carries an uninhabited payload and is
therefore not a constructible kind; it is omitted. -/
inductive ErrorKind where
  | WriteZero
  | UnexpectedEof
  deriving DecidableEq, Fintype

/-- Models `Error::from_kind` in the `std` build of src/src/lib.rs: the kind
is translated to the corresponding host kind and wrapped (lines 371-380). -/
def ErrorKind.from_kind (k : ErrorKind) : IoError :=
  match k with
  | .WriteZero => { kind := IoErrorKind.WriteZero }
  | .UnexpectedEof => { kind := IoErrorKind.UnexpectedEof }

/-- The crate error type in a build without the `std` feature: it stores the
`ErrorKind` directly (src/src/lib.rs, `ErrorInner::Kind`). -/
structure NoStdError where
  inner : ErrorKind
  deriving DecidableEq

/-- Models `Error::from_kind` in a build without `std` (src/src/lib.rs lines
282-286 and impls_nostd.rs): the kind is stored unchanged. -/
def NoStdError.from_kind (k : ErrorKind) : NoStdError :=
  { inner := k }

/-- Models `Error::is_interrupted` in a build without `std`
(src/src/lib.rs lines 278-280): always false. -/
def NoStdError.is_interrupted (_ : NoStdError) : Bool :=
  false

/-- A model of an implementor of the crate `Read` trait: a state type with the
primitive read.  `read s n` models `self.read(buf)` on a destination buffer of
length `n`; it returns the delivered bytes (at most `n` for a well-behaved
implementor, which is a hypothesis where it matters) and the successor state.
The state changes even on an error, as `read` takes `&mut self`. -/
structure Rd (σ : Type) where
  read : σ → Nat → Except IoError (List Byte) × σ

/-- A model of an implementor of the crate `Write` trait, analogously. -/
structure Wr (σ : Type) where
  write : σ → List Byte → Except IoError Nat × σ

/-- Models the default `Read::read_exact` loop of src/src/lib.rs lines
175-186.  Only the length of the not-yet-filled buffer tail is tracked, since
the loop rebinds `buf = &mut buf[n..]`.  The first argument is fuel: `none`
means the loop was still running.  A read reporting more bytes than the buffer
holds would make `buf[n..]` panic, modelled as `none` as well. -/
def read_exact (rd : Rd σ) : Nat → σ → Nat → Option (Except IoError Unit × σ)
  | 0, _, _ => none
  | _ + 1, s, 0 => some (Except.ok (), s)
  | fuel + 1, s, need + 1 =>
    match rd.read s (need + 1) with
    | (Except.ok bytes, s1) =>
      if bytes.length = 0 then
        some (Except.error (ErrorKind.from_kind ErrorKind.UnexpectedEof), s1)
      else if bytes.length ≤ need + 1 then
        read_exact rd fuel s1 (need + 1 - bytes.length)
      else
        none
    | (Except.error e, s1) =>
      if e.is_interrupted then
        read_exact rd fuel s1 (need + 1)
      else
        some (Except.error e, s1)

/-- Models the default `Write::write_all` loop of src/src/lib.rs lines
192-201.  The remaining buffer is kept as the byte list itself, mirroring
`buf = &buf[n..]`; a write reporting more bytes than it was offered would make
`buf[n..]` panic, modelled as `none`. -/
def write_all (wr : Wr σ) : Nat → σ → List Byte → Option (Except IoError Unit × σ)
  | 0, _, _ => none
  | _ + 1, s, [] => some (Except.ok (), s)
  | fuel + 1, s, b :: buf =>
    match wr.write s (b :: buf) with
    | (Except.ok n, s1) =>
      if n = 0 then
        some (Except.error (ErrorKind.from_kind ErrorKind.WriteZero), s1)
      else if n ≤ (b :: buf).length then
        write_all wr fuel s1 ((b :: buf).drop n)
      else
        none
    | (Except.error e, s1) =>
      if e.is_interrupted then
        write_all wr fuel s1 (b :: buf)
      else
        some (Except.error e, s1)

/-- Models `Read for AllowStd<&[u8]>` from src/src/lib.rs lines 253-259.
The source computes `len = min(src.len, buf.len)` and then executes
`buf[..len].copy_from_slice(&self.0)`, which panics unless `len` equals the
length of the whole source; the panic is modelled as `none`.  On success it
returns the filled buffer, the reported count, and the source slice, which
the code leaves unchanged. -/
def allowStdSliceRead (src : List Byte) (buf : List Byte) :
    Option (List Byte × Nat × List Byte) :=
  let len := min src.length buf.length
  if src.length = len then
    some (src ++ buf.drop len, len, src)
  else
    none

/-- Models `Read for &[u8]` from src/src/impls_nostd_noalloc.rs lines 8-15:
copy the first `len = min(src.len, buf.len)` source bytes into the buffer
prefix and advance the source past them.  Total. -/
def sliceRead (src : List Byte) (buf : List Byte) :
    List Byte × Nat × List Byte :=
  let len := min src.length buf.length
  (src.take len ++ buf.drop len, len, src.drop len)

/-- Models `Write for &mut [u8]` from src/src/impls_nostd_noalloc.rs lines
37-49.  The source computes `len = min(slice.len, buf.len)`, splits the slice,
and executes `head.copy_from_slice(buf)`, which panics unless `len` equals the
full length of `buf`; the panic is modelled as `none`.  On success the result
is the new content of the originally referenced memory together with the
reported count (the code additionally rebinds the reference to the tail). -/
def sliceWrite (slice : List Byte) (buf : List Byte) : Option (List Byte × Nat) :=
  let len := min slice.length buf.length
  if buf.length = len then
    some (buf ++ slice.drop len, len)
  else
    none

/-- The cursor of src/src/cursor.rs: a container plus a byte offset.  The
container is specialized to the byte list it dereferences to. -/
structure Cursor where
  inner : List Byte
  pos : Nat
  deriving DecidableEq

/-- Models `Cursor::new` (src/src/cursor.rs lines 8-10). -/
def Cursor.new (inner : List Byte) : Cursor :=
  { inner := inner, pos := 0 }

/-- Models `Cursor::position` (src/src/cursor.rs lines 24-26). -/
def Cursor.position (c : Cursor) : Nat :=
  c.pos

/-- Models `Cursor::set_position` (src/src/cursor.rs lines 28-30). -/
def Cursor.set_position (c : Cursor) (pos : Nat) : Cursor :=
  { c with pos := pos }

/-- The offset at which the cursor IO operations act: both `fill_buf` and the
cursor `write` locally compute `self.pos.min(buffer.len())`
(src/src/impls_always.rs lines 27 and 37). -/
def Cursor.effective_pos (c : Cursor) : Nat :=
  min c.pos c.inner.length

/-- Models `BufRead::fill_buf for Cursor<T>` (src/src/impls_always.rs lines
25-29): the suffix of the container starting at the clamped position. -/
def Cursor.fill_buf (c : Cursor) : Except IoError (List Byte) :=
  Except.ok (c.inner.drop c.effective_pos)

/-- Models `BufRead::consume for Cursor<T>` (src/src/impls_always.rs lines
30-32): the stored position advances without clamping. -/
def Cursor.consume (c : Cursor) (amt : Nat) : Cursor :=
  { c with pos := c.pos + amt }

/-- Models `Read::read for Cursor<T>` (src/src/impls_always.rs lines 8-12):
read from the `fill_buf` suffix through the slice read of
impls_nostd_noalloc.rs, then consume the count.  `bufLen` is the length of the
destination buffer; the delivered bytes are returned. -/
def Cursor.read (c : Cursor) (bufLen : Nat) : Except IoError (List Byte) × Cursor :=
  let slice := c.inner.drop c.effective_pos
  let n := min slice.length bufLen
  (Except.ok (slice.take n), c.consume n)

/-- Models `Write for Cursor<&mut [u8]>` (src/src/impls_always.rs lines
35-47): clamp the position, write through the slice write into the tail of
the container, and advance the stored (unclamped) position by the count.
A panic of the underlying slice write is propagated as `none`. -/
def Cursor.write (c : Cursor) (buf : List Byte) :
    Option (Except IoError Nat × Cursor) :=
  let pos := c.effective_pos
  match sliceWrite (c.inner.drop pos) buf with
  | none => none
  | some (slice1, n) =>
    some (Except.ok n, { inner := c.inner.take pos ++ slice1, pos := c.pos + n })

/-- The maximal value of a 64 bit unsigned offset. -/
def u64Max : Nat := 2 ^ 64 - 1

/-- The seek position specification of the baseline interface:
`Start(u64)`, `End(i64)`, `Current(i64)`.  Its declaration is not among the
sources; it follows spec section 6 and matches its uses in
src/src/impls_always.rs. -/
inductive SeekFrom where
  | Start (n : Nat)
  | End (ofs : Int)
  | Current (ofs : Int)
  deriving DecidableEq

/-- The checked combination of a base position with a signed offset performed
by the cursor seek (src/src/impls_always.rs lines 63-69): `checked_add` for a
nonnegative offset (failing past the u64 range), `checked_sub` of the
magnitude for a negative one (failing below zero).  Failure is the
`InvalidInput` error kind. -/
def seekCombine (base : Nat) (ofs : Int) : Except IoError Nat :=
  if 0 ≤ ofs then
    if base + ofs.toNat ≤ u64Max then
      Except.ok (base + ofs.toNat)
    else
      Except.error { kind := IoErrorKind.InvalidInput }
  else
    if ofs.natAbs ≤ base then
      Except.ok (base - ofs.natAbs)
    else
      Except.error { kind := IoErrorKind.InvalidInput }

/-- Models `Seek::seek for Cursor<T>` (src/src/impls_always.rs lines 53-71):
`Start` stores the offset unconditionally; `End` and `Current` combine the
container length resp. the current position with the offset, storing the
result only on success. -/
def Cursor.seek (c : Cursor) (p : SeekFrom) : Except IoError (Nat × Cursor) :=
  match p with
  | SeekFrom.Start n => Except.ok (n, { c with pos := n })
  | SeekFrom.End ofs =>
    match seekCombine c.inner.length ofs with
    | Except.ok n => Except.ok (n, { c with pos := n })
    | Except.error e => Except.error e
  | SeekFrom.Current ofs =>
    match seekCombine c.pos ofs with
    | Except.ok n => Except.ok (n, { c with pos := n })
    | Except.error e => Except.error e

/-- Models `Seek::stream_position for Cursor<T>` (src/src/impls_always.rs
lines 73-75). -/
def Cursor.stream_position (c : Cursor) : Except IoError Nat :=
  Except.ok c.pos

/-- A model of an implementor of the crate `BufRead` trait: the primitive
read plus `fill_buf` (a view of available bytes) and `consume`. -/
structure BufRd (σ : Type) extends Rd σ where
  fill_buf : σ → Except IoError (List Byte) × σ
  consume : σ → Nat → σ

/-- The length-limited wrapper: its declaration is not among the sources; per
the spec it is an inner value plus a remaining read allowance, matching the
field uses in src/src/impls_always.rs (`self.inner`, `self.limit`, a u64). -/
structure Take (σ : Type) where
  inner : σ
  limit : Nat

/-- Models `cap_min` (src/src/impls_always.rs lines 157-160) on a 64-bit
host, where the u64 to usize conversion always succeeds. -/
def cap_min (limit : Nat) (len : Nat) : Nat :=
  min limit len

/-- Models `Read::read for Take<R>` (src/src/impls_always.rs lines 163-175):
return 0 immediately at an exhausted limit, otherwise read into at most
`cap_min limit len` bytes and decrease the limit by the reported count with a
saturating subtraction (which Nat subtraction is). -/
def Take.read (rd : Rd σ) (t : Take σ) (bufLen : Nat) :
    Except IoError (List Byte) × Take σ :=
  if t.limit = 0 then
    (Except.ok [], t)
  else
    match rd.read t.inner (cap_min t.limit bufLen) with
    | (Except.ok bytes, s1) =>
      (Except.ok bytes, { inner := s1, limit := t.limit - bytes.length })
    | (Except.error e, s1) =>
      (Except.error e, { t with inner := s1 })

/-- Models `BufRead::fill_buf for Take<T>` (src/src/impls_always.rs lines
178-187): an exhausted limit yields the empty view without touching the inner
reader; otherwise the inner view is cut down to the limit. -/
def Take.fill_buf (rd : BufRd σ) (t : Take σ) :
    Except IoError (List Byte) × Take σ :=
  if t.limit = 0 then
    (Except.ok [], t)
  else
    match rd.fill_buf t.inner with
    | (Except.ok buf, s1) =>
      (Except.ok (buf.take (cap_min t.limit buf.length)), { t with inner := s1 })
    | (Except.error e, s1) =>
      (Except.error e, { t with inner := s1 })

/-- Models `BufRead::consume for Take<T>` (src/src/impls_always.rs lines
189-194): the amount is first capped by the limit, so the limit subtraction
cannot underflow, and only the capped amount reaches the inner reader. -/
def Take.consume (rd : BufRd σ) (t : Take σ) (amt : Nat) : Take σ :=
  let amt := cap_min t.limit amt
  { inner := rd.consume t.inner amt, limit := t.limit - amt }

/-- One observable interaction with a `Take` wrapper: a read against a buffer
of the given length, a buffered fill, or a consume of the given amount. -/
inductive TakeOp where
  | doRead (bufLen : Nat)
  | doFill
  | doConsume (amt : Nat)

/-- Run one `TakeOp`, returning the successor wrapper and the number of bytes
the wrapper handed out and committed in this step: the delivered byte count
of a successful read, and the amount a consume takes off the limit.  A
`fill_buf` view is repeatable and commits nothing until consumed. -/
def TakeStep (rd : BufRd σ) (t : Take σ) : TakeOp → Take σ × Nat
  | TakeOp.doRead n =>
    match Take.read rd.toRd t n with
    | (Except.ok bytes, t1) => (t1, bytes.length)
    | (Except.error _, t1) => (t1, 0)
  | TakeOp.doFill => ((Take.fill_buf rd t).2, 0)
  | TakeOp.doConsume n => (Take.consume rd t n, cap_min t.limit n)

/-- Run a sequence of `TakeOp`s, accumulating the handed-out byte count. -/
def TakeRun (rd : BufRd σ) (t : Take σ) : List TakeOp → Take σ × Nat
  | [] => (t, 0)
  | op :: rest =>
    let step := TakeStep rd t op
    let tail := TakeRun rd step.1 rest
    (tail.1, step.2 + tail.2)

/-- The behaviour a `Seek` vtable provides for a stream value of state type
σ: the trait implementation itself, independent of where the value lives.
Materializing an accessor combines it with the current value
(flexible-io/src/reader.rs, `as_seek_mut`). -/
def SeekImpl (σ : Type) := SeekFrom → σ → Except IoError (Nat × σ)

/-- The optional vtable table of flexible-io (reader.rs lines 50-55): one
slot per optional capability, each either empty or holding the
address-independent behaviour.  The `Any` vtable only carries the type
identity, which the development does not inspect, so the slot is a marker. -/
structure OptTable (σ : Type) where
  seek : Option (SeekImpl σ)
  buf : Option (BufRd σ)
  any : Option Unit

/-- The flexible-io `Reader` (reader.rs lines 44-48): the owned stream value,
the mandatory `Read` vtable captured at construction, and the optional
table.  Raw vtable pointers of the source become the trait implementations
themselves; the address half of every accessor is recomputed from the owned
value at each materialization, which the functional model renders by applying
the stored behaviour to the current `inner`. -/
structure Reader (σ : Type) where
  inner : σ
  read : Rd σ
  vtable : OptTable σ

/-- Models `Reader::new` (reader.rs lines 80-92): wrap the value, capture its
`Read` implementation, leave every optional slot empty. -/
def Reader.new (rdImpl : Rd σ) (v : σ) : Reader σ :=
  { inner := v, read := rdImpl, vtable := { seek := none, buf := none, any := none } }

/-- Models `Reader::set_seek` (reader.rs lines 161-166): populate the seek
slot with the implementation of the wrapped type, which the call site proves
to exist. -/
def Reader.set_seek (r : Reader σ) (impl : SeekImpl σ) : Reader σ :=
  { r with vtable := { r.vtable with seek := some impl } }

/-- Models `Reader::set_buf` (reader.rs lines 151-156). -/
def Reader.set_buf (r : Reader σ) (impl : BufRd σ) : Reader σ :=
  { r with vtable := { r.vtable with buf := some impl } }

/-- Models `Reader::set_any` (reader.rs lines 171-176). -/
def Reader.set_any (r : Reader σ) : Reader σ :=
  { r with vtable := { r.vtable with any := some () } }

/-- Models `Reader::as_seek_mut` (reader.rs lines 228-232): `None` while the
slot is empty; otherwise the stored behaviour re-anchored to the current
address of the owned value, i.e. an accessor acting on the current `inner`. -/
def Reader.as_seek_mut (r : Reader σ) :
    Option (SeekFrom → Except IoError (Nat × σ)) :=
  r.vtable.seek.map (fun impl => fun p => impl p r.inner)

/-- Models `Reader::into_inner` (reader.rs lines 249-251): the owned value as
it currently is, everything else discarded. -/
def Reader.into_inner (r : Reader σ) : σ :=
  r.inner

/-- The borrowed type-erased view (reader.rs lines 67-70): the referenced
stream value with the mandatory vtable, plus a copy of the optional table. -/
structure ReaderMut (σ : Type) where
  inner : σ
  read : Rd σ
  vtable : OptTable σ

/-- Models `Reader::as_mut` (reader.rs lines 111-124): copy the vtable
portions and erase the concrete type of the borrowed value. -/
def Reader.as_mut (r : Reader σ) : ReaderMut σ :=
  { inner := r.inner, read := r.read, vtable := r.vtable }

/-- Models `ReaderMut::as_seek_mut` (reader.rs lines 265-269): re-anchor the
seek behaviour, when present, to the referenced value. -/
def ReaderMut.as_seek_mut (r : ReaderMut σ) :
    Option (SeekFrom → Except IoError (Nat × σ)) :=
  r.vtable.seek.map (fun impl => fun p => impl p r.inner)

/-- The owned type-erased box (reader.rs lines 73-76): the heap-owned stream
value behind the mandatory vtable, plus the optional table. -/
structure ReaderBox (σ : Type) where
  inner : σ
  read : Rd σ
  vtable : OptTable σ

/-- Models `Reader::into_boxed` (reader.rs lines 131-146): move the owned
value to the heap and keep the vtable table; accessors materialized later
re-anchor to the new location, which the functional model renders by the
box carrying the same logical value and table. -/
def Reader.into_boxed (r : Reader σ) : ReaderBox σ :=
  { inner := r.inner, read := r.read, vtable := r.vtable }

/-- Models `ReaderBox::as_mut` (reader.rs lines 287-292). -/
def ReaderBox.as_mut (b : ReaderBox σ) : ReaderMut σ :=
  { inner := b.inner, read := b.read, vtable := b.vtable }

/-- Models `ReaderBox::as_seek_mut` (reader.rs lines 304-308): re-anchor the
seek behaviour, when present, to the boxed value. -/
def ReaderBox.as_seek_mut (b : ReaderBox σ) :
    Option (SeekFrom → Except IoError (Nat × σ)) :=
  b.vtable.seek.map (fun impl => fun p => impl p b.inner)

/-- Models `Reader::as_buf_mut` (reader.rs lines 208-212): `None` while the
slot is empty; otherwise the stored `BufRead` behaviour re-anchored to the
current value, i.e. its read, fill and consume operations acting on the
current `inner`. -/
def Reader.as_buf_mut (r : Reader σ) :
    Option ((Nat → Except IoError (List Byte) × σ)
      × (Except IoError (List Byte) × σ) × (Nat → σ)) :=
  r.vtable.buf.map (fun impl =>
    (fun n => impl.read r.inner n, impl.fill_buf r.inner, fun n => impl.consume r.inner n))

/-- Models `Reader::as_any_mut` (reader.rs lines 242-246): present exactly
when the `Any` slot was populated; the slot itself is the type-identity
marker, which is all the model carries for `dyn Any`. -/
def Reader.as_any_mut (r : Reader σ) : Option Unit :=
  r.vtable.any

/-- Models `ReaderMut::as_buf_mut` (reader.rs lines 259-263). -/
def ReaderMut.as_buf_mut (r : ReaderMut σ) :
    Option ((Nat → Except IoError (List Byte) × σ)
      × (Except IoError (List Byte) × σ) × (Nat → σ)) :=
  r.vtable.buf.map (fun impl =>
    (fun n => impl.read r.inner n, impl.fill_buf r.inner, fun n => impl.consume r.inner n))

/-- Models `ReaderMut::as_any_mut` (reader.rs lines 279-283). -/
def ReaderMut.as_any_mut (r : ReaderMut σ) : Option Unit :=
  r.vtable.any

/-- Models `ReaderBox::as_buf_mut` (reader.rs lines 298-302). -/
def ReaderBox.as_buf_mut (b : ReaderBox σ) :
    Option ((Nat → Except IoError (List Byte) × σ)
      × (Except IoError (List Byte) × σ) × (Nat → σ)) :=
  b.vtable.buf.map (fun impl =>
    (fun n => impl.read b.inner n, impl.fill_buf b.inner, fun n => impl.consume b.inner n))

/-- Models `ReaderBox::as_any_mut` (reader.rs lines 318-322). -/
def ReaderBox.as_any_mut (b : ReaderBox σ) : Option Unit :=
  b.vtable.any

/-- One operation of the `Reader` interface that leaves the handle in hand:
a capability declaration, or a use of a materialized (mandatory or optional)
mutable accessor, whose observable effect on the handle is an update of the
owned stream value. -/
inductive ReaderOp (σ : Type) where
  | opSetSeek (impl : SeekImpl σ)
  | opSetBuf (impl : BufRd σ)
  | opSetAny
  | opAccessorUse (f : σ → σ)

/-- Apply one interface operation to a handle. -/
def Reader.applyOp (r : Reader σ) : ReaderOp σ → Reader σ
  | ReaderOp.opSetSeek impl => r.set_seek impl
  | ReaderOp.opSetBuf impl => r.set_buf impl
  | ReaderOp.opSetAny => r.set_any
  | ReaderOp.opAccessorUse f => { r with inner := f r.inner }

/-- Apply a sequence of interface operations to a handle. -/
def Reader.applyOps (r : Reader σ) : List (ReaderOp σ) → Reader σ
  | [] => r
  | op :: rest => Reader.applyOps (r.applyOp op) rest

/-- The cumulative effect of a sequence of interface operations on the
wrapped stream value alone: declarations change nothing, accessor uses apply
their update. -/
def ReaderOp.mutations : List (ReaderOp σ) → σ → σ
  | [], s => s
  | ReaderOp.opAccessorUse f :: rest, s => ReaderOp.mutations rest (f s)
  | _ :: rest, s => ReaderOp.mutations rest s

/-- C4, counterexample: the error kind enumeration declared by the library
(src/src/lib.rs lines 124-133) has exactly two constructible kinds, not five:
`Interrupted`, `WouldBlock` and `InvalidData` are not among them. -/
theorem errorKind_has_two_kinds_not_five :
    Fintype.card ErrorKind = 2 ∧ Fintype.card ErrorKind < 5 := by
  constructor
  · decide
  · decide

/-- C4 (amended): the error kind enumeration contains exactly the two kinds
`WriteZero` and `UnexpectedEof` (as an open, extendable enumeration), and
every error value constructible from a kind preserves the kind it was
constructed from: directly in a build without `std`, and through the
corresponding host kind in the `std` build. -/
theorem errorKind_exactly_two_and_from_kind_preserves :
    (∀ k : ErrorKind, k = ErrorKind.WriteZero ∨ k = ErrorKind.UnexpectedEof)
    ∧ (∀ k : ErrorKind, (NoStdError.from_kind k).inner = k)
    ∧ (ErrorKind.from_kind ErrorKind.WriteZero).kind = IoErrorKind.WriteZero
    ∧ (ErrorKind.from_kind ErrorKind.UnexpectedEof).kind = IoErrorKind.UnexpectedEof := by
  refine ⟨?_, ?_, rfl, rfl⟩
  · intro k; cases k
    · exact Or.inl rfl
    · exact Or.inr rfl
  · intro k; rfl

/-- C9: the two byte slice reads are not equivalent.  On the source `[1, 2]`
with a one byte destination, the lib.rs implementation panics (the
`copy_from_slice` of the whole source into a shorter prefix), while the
impls_nostd_noalloc.rs implementation returns one byte and advances the
source; and even on the source `[1]` with a two byte destination, where both
succeed with count 1, the lib.rs implementation leaves the source in place
while the other advances it past the bytes read. -/
theorem slice_read_implementations_diverge :
    allowStdSliceRead [1, 2] [0] = none
    ∧ sliceRead [1, 2] [0] = ([1], 1, [2])
    ∧ allowStdSliceRead [1] [0, 0] = some ([1, 0], 1, [1])
    ∧ sliceRead [1] [0, 0] = ([1, 0], 1, []) := by
  refine ⟨rfl, rfl, rfl, rfl⟩

/-- C5: scenario D holds on the code, but the general clause fails: writing a
buffer longer than the remaining capacity does not return the shorter count,
it reaches the `copy_from_slice` length mismatch panic in the slice write.
The conjunction below evaluates the cursor: the two in-capacity writes of
scenario D produce exactly the expected buffer, while a two byte write into a
one byte buffer panics instead of writing one byte. -/
theorem cursor_write_scenario_d_and_overflow_panic :
    Cursor.write (Cursor.new (List.replicate 13 0))
        [72, 101, 108, 108, 111, 44, 32, 98, 114, 97, 105, 110, 33]
      = some (Except.ok 13,
          { inner := [72, 101, 108, 108, 111, 44, 32, 98, 114, 97, 105, 110, 33],
            pos := 13 })
    ∧ Cursor.seek
        { inner := [72, 101, 108, 108, 111, 44, 32, 98, 114, 97, 105, 110, 33],
          pos := 13 } (SeekFrom.Start 7)
      = Except.ok (7,
          { inner := [72, 101, 108, 108, 111, 44, 32, 98, 114, 97, 105, 110, 33],
            pos := 7 })
    ∧ Cursor.write
        { inner := [72, 101, 108, 108, 111, 44, 32, 98, 114, 97, 105, 110, 33],
          pos := 7 } [119, 111, 114, 108, 100, 33]
      = some (Except.ok 6,
          { inner := [72, 101, 108, 108, 111, 44, 32, 119, 111, 114, 108, 100, 33],
            pos := 13 })
    ∧ Cursor.write (Cursor.new [0]) [7, 8] = none := by
  refine ⟨rfl, rfl, rfl, rfl⟩

/-- The in-bounds property of cursor IO at a given cursor state: the clamped
offset both `fill_buf` and `write` compute stays inside the container,
`fill_buf` hands out exactly the in-bounds suffix at that offset, every
successful read delivers a contiguous in-bounds part of the container without
touching it, and every successful write stays inside the container, changing
only the bytes from the clamped offset up to the reported count and never
growing the container. -/
def CursorIoInBounds (c : Cursor) : Prop :=
  c.effective_pos ≤ c.inner.length
  ∧ Cursor.fill_buf c = Except.ok (c.inner.drop c.effective_pos)
  ∧ (∀ k bytes c2, Cursor.read c k = (Except.ok bytes, c2) →
      bytes.length + c.effective_pos ≤ c.inner.length
      ∧ bytes <:+: c.inner
      ∧ c2.inner = c.inner)
  ∧ (∀ buf n c2, Cursor.write c buf = some (Except.ok n, c2) →
      c2.inner.length = c.inner.length
      ∧ c.effective_pos + n ≤ c.inner.length
      ∧ c2.inner = c.inner.take c.effective_pos ++ buf ++ c.inner.drop (c.effective_pos + n))

/-- Every cursor state enjoys the in-bounds property: the clamp
`self.pos.min(buffer.len())` recomputed inside `fill_buf` and `write` keeps
all IO inside the container, whatever offset is stored. -/
theorem cursorIoInBounds_all (c : Cursor) : CursorIoInBounds c := by
  refine ⟨Nat.min_le_right _ _, rfl, ?_, ?_⟩
  · intro k bytes c2 h
    simp only [Cursor.read, Prod.mk.injEq, Except.ok.injEq] at h
    obtain ⟨hb, hc⟩ := h
    subst hb
    refine ⟨?_, ?_, ?_⟩
    · have h1 : (c.inner.drop c.effective_pos).length = c.inner.length - c.effective_pos := by
        simp
      have h2 : ((c.inner.drop c.effective_pos).take (min (c.inner.drop c.effective_pos).length k)).length ≤ (c.inner.drop c.effective_pos).length := by
        simp
      have h3 : c.effective_pos ≤ c.inner.length := Nat.min_le_right _ _
      omega
    · exact ((List.take_prefix _ _).isInfix).trans ((List.drop_suffix _ _).isInfix)
    · subst hc
      rfl
  · intro buf n c2 h
    simp only [Cursor.write, sliceWrite] at h
    by_cases hcond : buf.length = min (c.inner.drop c.effective_pos).length buf.length
    · simp only [if_pos hcond, Option.some.injEq, Prod.mk.injEq, Except.ok.injEq] at h
      obtain ⟨hn, hc⟩ := h
      have hlen : buf.length ≤ (c.inner.drop c.effective_pos).length := by
        omega
      have hdrop : (c.inner.drop c.effective_pos).length = c.inner.length - c.effective_pos := by
        simp
      have heff : c.effective_pos ≤ c.inner.length := Nat.min_le_right _ _
      subst hn
      refine ⟨?_, by omega, ?_⟩
      · rw [← hc]
        simp
        omega
      · rw [← hc]
        have hmin : min (c.inner.drop c.effective_pos).length buf.length = buf.length := by
          omega
        rw [hmin, List.drop_drop]
        simp [Nat.add_comm]
    · simp only [if_neg hcond] at h
      exact absurd h (by simp)

/-- C3: after any seek, successful or applied through `set_position`, the
cursor state reached satisfies `CursorIoInBounds`: the position at which
subsequent reads and writes operate is clamped to the container and no IO
addresses outside it. -/
theorem cursor_seek_set_position_in_bounds (c : Cursor) (p : SeekFrom) (q : Nat) :
    (∀ n c1, Cursor.seek c p = Except.ok (n, c1) → CursorIoInBounds c1)
    ∧ CursorIoInBounds (Cursor.set_position c q) := by
  exact ⟨fun n c1 _ => cursorIoInBounds_all c1, cursorIoInBounds_all _⟩

/-- C3 witness: a concrete out-of-range seek on a three byte container lands
on stored offset 100, and the in-bounds property holds there, as it does after
`set_position 5`. -/
theorem cursor_seek_set_position_in_bounds_witness :
    Cursor.seek (Cursor.new [1, 2, 3]) (SeekFrom.Start 100)
      = Except.ok (100, { inner := [1, 2, 3], pos := 100 })
    ∧ CursorIoInBounds { inner := [1, 2, 3], pos := 100 }
    ∧ CursorIoInBounds (Cursor.set_position (Cursor.new [1, 2, 3]) 5) :=
  ⟨rfl,
    (cursor_seek_set_position_in_bounds (Cursor.new [1, 2, 3]) (SeekFrom.Start 100) 5).1
      100 { inner := [1, 2, 3], pos := 100 } rfl,
    (cursor_seek_set_position_in_bounds (Cursor.new [1, 2, 3]) (SeekFrom.Start 100) 5).2⟩

/-- C2: one pass of the `read_exact` and `write_all` loops on a non-empty
remaining buffer.  An interrupted primitive error is retried transparently,
with the buffer not advanced; any other primitive error is returned
immediately; a primitive read of zero bytes yields the unexpected-end error
and a primitive write of zero bytes yields the write-zero error. -/
theorem read_exact_write_all_loop {σ τ : Type} (rd : Rd σ) (wr : Wr τ)
    (fuel : Nat) (s : σ) (t : τ) (m : Nat) (b : Byte) (buf : List Byte) :
    (∀ e s1, rd.read s (m + 1) = (Except.error e, s1) → e.is_interrupted = true →
      read_exact rd (fuel + 1) s (m + 1) = read_exact rd fuel s1 (m + 1))
    ∧ (∀ e s1, rd.read s (m + 1) = (Except.error e, s1) → e.is_interrupted = false →
      read_exact rd (fuel + 1) s (m + 1) = some (Except.error e, s1))
    ∧ (∀ s1, rd.read s (m + 1) = (Except.ok [], s1) →
      read_exact rd (fuel + 1) s (m + 1)
        = some (Except.error (ErrorKind.from_kind ErrorKind.UnexpectedEof), s1))
    ∧ (∀ e t1, wr.write t (b :: buf) = (Except.error e, t1) → e.is_interrupted = true →
      write_all wr (fuel + 1) t (b :: buf) = write_all wr fuel t1 (b :: buf))
    ∧ (∀ e t1, wr.write t (b :: buf) = (Except.error e, t1) → e.is_interrupted = false →
      write_all wr (fuel + 1) t (b :: buf) = some (Except.error e, t1))
    ∧ (∀ t1, wr.write t (b :: buf) = (Except.ok 0, t1) →
      write_all wr (fuel + 1) t (b :: buf)
        = some (Except.error (ErrorKind.from_kind ErrorKind.WriteZero), t1)) := by
  refine ⟨?_, ?_, ?_, ?_, ?_, ?_⟩
  · intro e s1 h hi
    simp [read_exact, h, hi]
  · intro e s1 h hi
    simp [read_exact, h, hi]
  · intro s1 h
    simp [read_exact, h]
  · intro e t1 h hi
    simp [write_all, h, hi]
  · intro e t1 h hi
    simp [write_all, h, hi]
  · intro t1 h
    simp [write_all, h]

/-- A scripted reader used as a concrete instance: its state is the list of
results its successive primitive reads shall produce. -/
def scriptRd : Rd (List (Except IoError (List Byte))) :=
  { read := fun s _ =>
      match s with
      | [] => (Except.ok [], [])
      | r :: rest => (r, rest) }

/-- A scripted writer used as a concrete instance, analogously. -/
def scriptWr : Wr (List (Except IoError Nat)) :=
  { write := fun s _ =>
      match s with
      | [] => (Except.ok 0, [])
      | r :: rest => (r, rest) }

/-- C2 witness: the six loop behaviours at concrete scripted readers and
writers with a one byte remaining buffer. -/
theorem read_exact_write_all_loop_witness :
    read_exact scriptRd 2 [Except.error { kind := IoErrorKind.Interrupted }, Except.ok [7]] 1
      = read_exact scriptRd 1 [Except.ok [7]] 1
    ∧ read_exact scriptRd 1 [Except.error { kind := IoErrorKind.WouldBlock }] 1
      = some (Except.error { kind := IoErrorKind.WouldBlock }, [])
    ∧ read_exact scriptRd 1 [Except.ok []] 1
      = some (Except.error (ErrorKind.from_kind ErrorKind.UnexpectedEof), [])
    ∧ write_all scriptWr 2 [Except.error { kind := IoErrorKind.Interrupted }, Except.ok 1] [5]
      = write_all scriptWr 1 [Except.ok 1] [5]
    ∧ write_all scriptWr 1 [Except.error { kind := IoErrorKind.WouldBlock }] [5]
      = some (Except.error { kind := IoErrorKind.WouldBlock }, [])
    ∧ write_all scriptWr 1 [Except.ok 0] [5]
      = some (Except.error (ErrorKind.from_kind ErrorKind.WriteZero), []) :=
  ⟨(read_exact_write_all_loop scriptRd scriptWr 1
      [Except.error { kind := IoErrorKind.Interrupted }, Except.ok [7]]
      [Except.error { kind := IoErrorKind.Interrupted }, Except.ok 1] 0 5 []).1
      { kind := IoErrorKind.Interrupted } [Except.ok [7]] rfl rfl,
    (read_exact_write_all_loop scriptRd scriptWr 0
      [Except.error { kind := IoErrorKind.WouldBlock }]
      [Except.error { kind := IoErrorKind.WouldBlock }] 0 5 []).2.1
      { kind := IoErrorKind.WouldBlock } [] rfl rfl,
    (read_exact_write_all_loop scriptRd scriptWr 0
      [Except.ok []] [Except.ok 0] 0 5 []).2.2.1 [] rfl,
    (read_exact_write_all_loop scriptRd scriptWr 1
      [Except.error { kind := IoErrorKind.Interrupted }, Except.ok [7]]
      [Except.error { kind := IoErrorKind.Interrupted }, Except.ok 1] 0 5 []).2.2.2.1
      { kind := IoErrorKind.Interrupted } [Except.ok 1] rfl rfl,
    (read_exact_write_all_loop scriptRd scriptWr 0
      [Except.error { kind := IoErrorKind.WouldBlock }]
      [Except.error { kind := IoErrorKind.WouldBlock }] 0 5 []).2.2.2.2.1
      { kind := IoErrorKind.WouldBlock } [] rfl rfl,
    (read_exact_write_all_loop scriptRd scriptWr 0
      [Except.ok []] [Except.ok 0] 0 5 []).2.2.2.2.2 [] rfl⟩

/-- One step of a `Take` interaction exactly accounts against the limit: the
bytes handed out in the step plus the remaining limit equal the limit before
the step, provided the inner reader never reports more bytes than requested. -/
theorem TakeStep_limit (rd : BufRd σ) (t : Take σ)
    (hread : ∀ s n bytes s1, rd.read s n = (Except.ok bytes, s1) → bytes.length ≤ n)
    (op : TakeOp) :
    (TakeStep rd t op).2 + (TakeStep rd t op).1.limit = t.limit := by
  cases op with
  | doRead n =>
    by_cases h0 : t.limit = 0
    · simp [TakeStep, Take.read, h0]
    · simp only [TakeStep, Take.read, if_neg h0]
      rcases hr : rd.read t.inner (cap_min t.limit n) with ⟨res, s1⟩
      cases res with
      | ok bytes =>
        have hb : bytes.length ≤ cap_min t.limit n := hread _ _ _ _ hr
        have : cap_min t.limit n ≤ t.limit := Nat.min_le_left _ _
        simp only [hr]
        omega
      | error e =>
        simp only [hr]
        omega
  | doFill =>
    by_cases h0 : t.limit = 0
    · simp [TakeStep, Take.fill_buf, h0]
    · simp only [TakeStep, Take.fill_buf, if_neg h0]
      rcases hr : rd.fill_buf t.inner with ⟨res, s1⟩
      cases res <;> simp [hr]
  | doConsume n =>
    have : cap_min t.limit n ≤ t.limit := Nat.min_le_left _ _
    simp only [TakeStep, Take.consume, cap_min]
    omega

/-- C8: `Take` caps cumulative delivery at the configured limit.  Over any
sequence of reads, fills and consumes with an inner reader that never reports
more bytes than requested, the bytes handed out plus the remaining limit
equal the initial limit, so the handed-out total never exceeds it; every
successful read or fill view fits in the remaining limit, with the limit
decreasing exactly by the delivered count on a read (no underflow); and at an
exhausted limit both `read` and `fill_buf` report end of data and return the
wrapper unchanged, for every inner reader, i.e. without invoking it. -/
theorem take_limit_invariant (rd : BufRd σ) (t : Take σ) (ops : List TakeOp)
    (hread : ∀ s n bytes s1, rd.read s n = (Except.ok bytes, s1) → bytes.length ≤ n) :
    (TakeRun rd t ops).2 + (TakeRun rd t ops).1.limit = t.limit
    ∧ (TakeRun rd t ops).2 ≤ t.limit
    ∧ (∀ u : Take σ, ∀ k bytes u1,
        Take.read rd.toRd u k = (Except.ok bytes, u1) →
          bytes.length ≤ u.limit ∧ u1.limit + bytes.length = u.limit)
    ∧ (∀ u : Take σ, ∀ bytes u1,
        Take.fill_buf rd u = (Except.ok bytes, u1) →
          bytes.length ≤ u.limit ∧ u1.limit = u.limit)
    ∧ (∀ s k, Take.read rd.toRd { inner := s, limit := 0 } k
        = (Except.ok [], { inner := s, limit := 0 }))
    ∧ (∀ s : σ, Take.fill_buf rd { inner := s, limit := 0 }
        = (Except.ok [], { inner := s, limit := 0 })) := by
  have hrun : ∀ (ops : List TakeOp) (u : Take σ),
      (TakeRun rd u ops).2 + (TakeRun rd u ops).1.limit = u.limit := by
    intro ops
    induction ops with
    | nil => intro u; simp [TakeRun]
    | cons op rest ih =>
      intro u
      have hstep := TakeStep_limit rd u hread op
      have htail := ih (TakeStep rd u op).1
      simp only [TakeRun]
      omega
  refine ⟨hrun ops t, ?_, ?_, ?_, ?_, ?_⟩
  · have := hrun ops t
    omega
  · intro u k bytes u1 h
    by_cases h0 : u.limit = 0
    · simp only [Take.read, if_pos h0, Prod.mk.injEq, Except.ok.injEq] at h
      obtain ⟨hb, hu⟩ := h
      subst hb
      subst hu
      simp
    · simp only [Take.read, if_neg h0] at h
      rcases hr : rd.read u.inner (cap_min u.limit k) with ⟨res, s1⟩
      cases res with
      | ok bytes0 =>
        rw [hr] at h
        simp only [Prod.mk.injEq, Except.ok.injEq] at h
        obtain ⟨hb, hu⟩ := h
        have hle : bytes0.length ≤ cap_min u.limit k := hread _ _ _ _ hr
        have hcap : cap_min u.limit k ≤ u.limit := Nat.min_le_left _ _
        have hlim : u1.limit = u.limit - bytes0.length := by
          rw [← hu]
        have hlen : bytes.length = bytes0.length := by
          rw [← hb]
        constructor
        · omega
        · omega
      | error e =>
        rw [hr] at h
        simp at h
  · intro u bytes u1 h
    by_cases h0 : u.limit = 0
    · simp only [Take.fill_buf, if_pos h0, Prod.mk.injEq, Except.ok.injEq] at h
      obtain ⟨hb, hu⟩ := h
      subst hb
      subst hu
      simp
    · simp only [Take.fill_buf, if_neg h0] at h
      rcases hr : rd.fill_buf u.inner with ⟨res, s1⟩
      cases res with
      | ok buf0 =>
        rw [hr] at h
        simp only [Prod.mk.injEq, Except.ok.injEq] at h
        obtain ⟨hb, hu⟩ := h
        have hlen : bytes.length = min (cap_min u.limit buf0.length) buf0.length := by
          rw [← hb]
          simp
        have hcap : cap_min u.limit buf0.length ≤ u.limit := Nat.min_le_left _ _
        constructor
        · have h1 : min (cap_min u.limit buf0.length) buf0.length ≤ cap_min u.limit buf0.length :=
            Nat.min_le_left _ _
          omega
        · rw [← hu]
      | error e =>
        rw [hr] at h
        simp at h
  · intro s k
    simp [Take.read]
  · intro s
    simp [Take.fill_buf]

/-- A constant inner buffered reader over a unit state: reads deliver exactly
the requested count, fills always offer four bytes, consumes do nothing. -/
def constRd : BufRd Unit :=
  { read := fun _ n => (Except.ok (List.replicate n 7), ())
    fill_buf := fun _ => (Except.ok [7, 7, 7, 7], ())
    consume := fun s _ => s }

/-- C8 witness: the accounting identity at a concrete wrapper with limit 5
under a read of 3, a fill, and an over-large consume of 10. -/
theorem take_limit_invariant_witness :
    (TakeRun constRd { inner := (), limit := 5 }
        [TakeOp.doRead 3, TakeOp.doFill, TakeOp.doConsume 10]).2
      + (TakeRun constRd { inner := (), limit := 5 }
        [TakeOp.doRead 3, TakeOp.doFill, TakeOp.doConsume 10]).1.limit = 5 :=
  (take_limit_invariant constRd { inner := (), limit := 5 }
    [TakeOp.doRead 3, TakeOp.doFill, TakeOp.doConsume 10]
    (by
      intro s n bytes s1 h
      simp only [constRd, Prod.mk.injEq, Except.ok.injEq] at h
      rw [← h.1]
      simp)).1

/-- The value a handle finally unwraps is its current wrapped value, however
the handle got there. -/
theorem Reader.applyOps_into_inner {σ : Type} :
    ∀ (ops : List (ReaderOp σ)) (r : Reader σ),
      (Reader.applyOps r ops).into_inner = ReaderOp.mutations ops r.inner := by
  intro ops
  induction ops with
  | nil =>
    intro r
    rfl
  | cons op rest ih =>
    intro r
    cases op with
    | opSetSeek impl => exact ih _
    | opSetBuf impl => exact ih _
    | opSetAny => exact ih _
    | opAccessorUse f => exact ih _

/-- C7: round-trip unwrap.  Wrapping a concrete value, performing any
sequence of capability declarations and accessor uses, and unwrapping with
`into_inner` yields exactly the original value with precisely the accessor
mutations applied to it — declarations change nothing about the value. -/
theorem into_inner_round_trip (rdImpl : Rd σ) (v : σ) (ops : List (ReaderOp σ)) :
    (Reader.applyOps (Reader.new rdImpl v) ops).into_inner = ReaderOp.mutations ops v :=
  Reader.applyOps_into_inner ops (Reader.new rdImpl v)

/-- No interface operation empties a populated seek slot. -/
theorem Reader.applyOps_seek_isSome {σ : Type} :
    ∀ (ops : List (ReaderOp σ)) (r : Reader σ),
      r.vtable.seek.isSome = true →
      ((Reader.applyOps r ops).vtable.seek).isSome = true := by
  intro ops
  induction ops with
  | nil =>
    intro r hr
    exact hr
  | cons op rest ih =>
    intro r hr
    cases op with
    | opSetSeek impl =>
      exact ih _ (by simp [Reader.applyOp, Reader.set_seek])
    | opSetBuf impl =>
      exact ih _ (by simpa [Reader.applyOp, Reader.set_buf] using hr)
    | opSetAny =>
      exact ih _ (by simpa [Reader.applyOp, Reader.set_any] using hr)
    | opAccessorUse f =>
      exact ih _ (by simpa [Reader.applyOp] using hr)

/-- No interface operation empties a populated buffered-read slot. -/
theorem Reader.applyOps_buf_isSome {σ : Type} :
    ∀ (ops : List (ReaderOp σ)) (r : Reader σ),
      r.vtable.buf.isSome = true →
      ((Reader.applyOps r ops).vtable.buf).isSome = true := by
  intro ops
  induction ops with
  | nil =>
    intro r hr
    exact hr
  | cons op rest ih =>
    intro r hr
    cases op with
    | opSetSeek impl =>
      exact ih _ (by simpa [Reader.applyOp, Reader.set_seek] using hr)
    | opSetBuf impl =>
      exact ih _ (by simp [Reader.applyOp, Reader.set_buf])
    | opSetAny =>
      exact ih _ (by simpa [Reader.applyOp, Reader.set_any] using hr)
    | opAccessorUse f =>
      exact ih _ (by simpa [Reader.applyOp] using hr)

/-- No interface operation empties a populated `Any` slot. -/
theorem Reader.applyOps_any_isSome {σ : Type} :
    ∀ (ops : List (ReaderOp σ)) (r : Reader σ),
      r.vtable.any.isSome = true →
      ((Reader.applyOps r ops).vtable.any).isSome = true := by
  intro ops
  induction ops with
  | nil =>
    intro r hr
    exact hr
  | cons op rest ih =>
    intro r hr
    cases op with
    | opSetSeek impl =>
      exact ih _ (by simpa [Reader.applyOp, Reader.set_seek] using hr)
    | opSetBuf impl =>
      exact ih _ (by simpa [Reader.applyOp, Reader.set_buf] using hr)
    | opSetAny =>
      exact ih _ (by simp [Reader.applyOp, Reader.set_any])
    | opAccessorUse f =>
      exact ih _ (by simpa [Reader.applyOp] using hr)

/-- C6: no retraction, for every optional capability.  Once `set_seek`,
`set_buf` or `set_any` has populated its slot, the corresponding optional
accessor is present — never absent — after every further sequence of
interface operations, on the handle itself, on every borrowed erased view
derived from it, and on the owned erased box and the views derived from
that. -/
theorem declared_capability_never_retracted (r : Reader σ) (si : SeekImpl σ)
    (bi : BufRd σ) (ops : List (ReaderOp σ)) :
    (((Reader.applyOps (r.set_seek si) ops).as_seek_mut).isSome = true
      ∧ (((Reader.applyOps (r.set_seek si) ops).as_mut).as_seek_mut).isSome = true
      ∧ (((Reader.applyOps (r.set_seek si) ops).into_boxed).as_seek_mut).isSome = true
      ∧ ((((Reader.applyOps (r.set_seek si) ops).into_boxed).as_mut).as_seek_mut).isSome
          = true)
    ∧ (((Reader.applyOps (r.set_buf bi) ops).as_buf_mut).isSome = true
      ∧ (((Reader.applyOps (r.set_buf bi) ops).as_mut).as_buf_mut).isSome = true
      ∧ (((Reader.applyOps (r.set_buf bi) ops).into_boxed).as_buf_mut).isSome = true
      ∧ ((((Reader.applyOps (r.set_buf bi) ops).into_boxed).as_mut).as_buf_mut).isSome
          = true)
    ∧ (((Reader.applyOps r.set_any ops).as_any_mut).isSome = true
      ∧ (((Reader.applyOps r.set_any ops).as_mut).as_any_mut).isSome = true
      ∧ (((Reader.applyOps r.set_any ops).into_boxed).as_any_mut).isSome = true
      ∧ ((((Reader.applyOps r.set_any ops).into_boxed).as_mut).as_any_mut).isSome
          = true) := by
  have hseek : ((Reader.applyOps (r.set_seek si) ops).vtable.seek).isSome = true :=
    Reader.applyOps_seek_isSome ops (r.set_seek si) (by simp [Reader.set_seek])
  have hbuf : ((Reader.applyOps (r.set_buf bi) ops).vtable.buf).isSome = true :=
    Reader.applyOps_buf_isSome ops (r.set_buf bi) (by simp [Reader.set_buf])
  have hany : ((Reader.applyOps r.set_any ops).vtable.any).isSome = true :=
    Reader.applyOps_any_isSome ops r.set_any (by simp [Reader.set_any])
  refine ⟨⟨?_, ?_, ?_, ?_⟩, ⟨?_, ?_, ?_, ?_⟩, ⟨?_, ?_, ?_, ?_⟩⟩
  · simpa [Reader.as_seek_mut] using hseek
  · simpa [Reader.as_mut, ReaderMut.as_seek_mut] using hseek
  · simpa [Reader.into_boxed, ReaderBox.as_seek_mut] using hseek
  · simpa [Reader.into_boxed, ReaderBox.as_mut, ReaderMut.as_seek_mut] using hseek
  · simpa [Reader.as_buf_mut] using hbuf
  · simpa [Reader.as_mut, ReaderMut.as_buf_mut] using hbuf
  · simpa [Reader.into_boxed, ReaderBox.as_buf_mut] using hbuf
  · simpa [Reader.into_boxed, ReaderBox.as_mut, ReaderMut.as_buf_mut] using hbuf
  · simpa [Reader.as_any_mut] using hany
  · simpa [Reader.as_mut, ReaderMut.as_any_mut] using hany
  · simpa [Reader.into_boxed, ReaderBox.as_any_mut] using hany
  · simpa [Reader.into_boxed, ReaderBox.as_mut, ReaderMut.as_any_mut] using hany

/-- C1: converting a handle with a declared seek capability into the owned
erased box preserves observable behaviour.  The accessor materialized on the
handle is the declared behaviour anchored to the current value; after a seek
through it moved the value to state `s1`, the box produced by `into_boxed`
owns exactly `s1` with the vtable unchanged, and the seek accessor
materialized on the box is the same behaviour re-anchored to `s1` — the seek
position established before the conversion is still in effect through the
box. -/
theorem into_boxed_preserves_declared_seek (r : Reader σ) (impl : SeekImpl σ)
    (p : SeekFrom) (n : Nat) (s1 : σ)
    (hdecl : r.vtable.seek = some impl)
    (hseek : impl p r.inner = Except.ok (n, s1)) :
    r.as_seek_mut = some (fun q => impl q r.inner)
    ∧ (∀ a, r.as_seek_mut = some a → a p = Except.ok (n, s1))
    ∧ ({ r with inner := s1 } : Reader σ).into_boxed.inner = s1
    ∧ ({ r with inner := s1 } : Reader σ).into_boxed.vtable = r.vtable
    ∧ ({ r with inner := s1 } : Reader σ).into_boxed.as_seek_mut
        = some (fun q => impl q s1) := by
  have hacc : r.as_seek_mut = some (fun q => impl q r.inner) := by
    rw [Reader.as_seek_mut, hdecl]
    rfl
  refine ⟨hacc, ?_, rfl, rfl, ?_⟩
  · intro a ha
    rw [hacc] at ha
    simp only [Option.some.injEq] at ha
    rw [← ha]
    exact hseek
  · show (({ r with inner := s1 } : Reader σ).vtable.seek).map _ = _
    rw [show ({ r with inner := s1 } : Reader σ).vtable.seek = r.vtable.seek from rfl, hdecl]
    rfl

/-- The not-io cursor as a concrete `Read` implementor for witnesses. -/
def cursorRd : Rd Cursor :=
  { read := fun c n => Cursor.read c n }

/-- The not-io cursor seek as a concrete declared seek behaviour. -/
def cursorSeekImpl : SeekImpl Cursor :=
  fun p c => Cursor.seek c p

/-- A reader handle over a cursor on the thirteen bytes of a greeting, with
the seek capability declared. -/
def rC : Reader Cursor :=
  (Reader.new cursorRd
    (Cursor.new [72, 101, 108, 108, 111, 44, 32, 119, 111, 114, 108, 100, 33])).set_seek
    cursorSeekImpl

/-- C1 witness: after seeking the concrete cursor handle to offset 7 through
its accessor, the box obtained by conversion owns the cursor at position 7
and its seek accessor is the cursor seek anchored there. -/
theorem into_boxed_preserves_declared_seek_witness :
    ({ rC with
        inner := { inner := [72, 101, 108, 108, 111, 44, 32, 119, 111, 114, 108, 100, 33],
                   pos := 7 } } : Reader Cursor).into_boxed.inner
      = { inner := [72, 101, 108, 108, 111, 44, 32, 119, 111, 114, 108, 100, 33], pos := 7 }
    ∧ ({ rC with
        inner := { inner := [72, 101, 108, 108, 111, 44, 32, 119, 111, 114, 108, 100, 33],
                   pos := 7 } } : Reader Cursor).into_boxed.as_seek_mut
      = some (fun q => cursorSeekImpl q
          { inner := [72, 101, 108, 108, 111, 44, 32, 119, 111, 114, 108, 100, 33],
            pos := 7 }) :=
  ⟨(into_boxed_preserves_declared_seek rC cursorSeekImpl (SeekFrom.Start 7) 7
      { inner := [72, 101, 108, 108, 111, 44, 32, 119, 111, 114, 108, 100, 33], pos := 7 }
      rfl rfl).2.2.1,
    (into_boxed_preserves_declared_seek rC cursorSeekImpl (SeekFrom.Start 7) 7
      { inner := [72, 101, 108, 108, 111, 44, 32, 119, 111, 114, 108, 100, 33], pos := 7 }
      rfl rfl).2.2.2.2⟩
